import Mathlib

/-!
Verification development for the image-compositing routine
`paste_image_auto` (src/image_fit_paste.py).

The embedding is shallow: images are finite grids of RGBA pixels carried
by a total pixel function, coordinates and padding are integers, and the
scale arithmetic of the source (Python float division, `min`, `round`) is
carried out exactly over `ℚ`, with Python's `round` (nearest integer,
ties to even) embedded as `pyRound` and Python's floor division `//` as
`Int.fdiv`.  The Pillow primitives the routine calls (resize, paste,
paste-with-mask, PNG encoding) are external collaborators of the
repository; they are modelled at the boundary the specification gives
them, and each such stand-in is marked in its doc comment.
-/

namespace ImageFitPaste

/-- An RGBA pixel; channel values are natural numbers (0..255 in use). -/
structure Pixel where
  r : ℕ
  g : ℕ
  b : ℕ
  a : ℕ
deriving DecidableEq

/-- A decoded raster image: width, height, whether the band layout carries
an alpha channel (`"A" in im.getbands()`), and a total pixel function. -/
structure PILImage where
  width : ℕ
  height : ℕ
  hasAlpha : Bool
  pix : ℕ → ℕ → Pixel

/-- Modelled from the spec: the codec's `convert("RGBA")` — forces a
four-channel layout; pixels of an alpha-less image become fully opaque. -/
def convertRGBA (im : PILImage) : PILImage :=
  { width := im.width, height := im.height, hasAlpha := true,
    pix := fun x y => if im.hasAlpha then im.pix x y else { im.pix x y with a := 255 } }

/-- The file system seen by `os.path.isfile` / `Image.open`: a path maps to
the decoded image it holds, or to `none` when no such file exists. -/
abbrev FS := String → Option PILImage

/-- The `image_source` / `image_overlay` arguments: a path or a decoded image. -/
inductive ImgSource where
  | path (p : String)
  | image (im : PILImage)

/-- The `content_image` argument as received at runtime: either an actual
decoded image, or any other value (which fails the `isinstance` check). -/
inductive ContentArg where
  | image (im : PILImage)
  | notImage

/-- Horizontal alignment. -/
inductive Align where
  | left
  | center
  | right

/-- Vertical alignment. -/
inductive VAlign where
  | top
  | middle
  | bottom

/-- The errors `paste_image_auto` can surface: its own two `ValueError`s and
the `TypeError`, plus the decode failure propagated from the codec. -/
inductive PErr where
  | typeMismatch
  | decodeFailure
  | invalidGeometry
  | invalidContentSize
deriving DecidableEq

/-- Python's `round` on an exact rational: nearest integer, ties to even. -/
def pyRound (q : ℚ) : ℤ :=
  if q - ⌊q⌋ < 1/2 then ⌊q⌋
  else if 1/2 < q - ⌊q⌋ then ⌊q⌋ + 1
  else if ⌊q⌋ % 2 = 0 then ⌊q⌋ else ⌊q⌋ + 1

/-- `max(1, (b - a) - 2 * padding)` — the inner (padded) dimension,
lines 70-71 of the source. -/
def innerDim (a b padding : ℤ) : ℤ := max 1 ((b - a) - 2 * padding)

/-- Lines 82-93 of the source: the contain scale
`min(region_w / cw, region_h / ch)`, clamped to at most 1 when upscaling
is not allowed. -/
def containScale (region_w region_h : ℤ) (cw ch : ℕ) (allow_upscale : Bool) : ℚ :=
  let scale := min ((region_w : ℚ) / (cw : ℚ)) ((region_h : ℚ) / (ch : ℚ))
  if allow_upscale then scale else min 1 scale

/-- Lines 96-97 of the source: `max(1, int(round(c * scale)))`. -/
def placedDim (c : ℕ) (scale : ℚ) : ℤ := max 1 (pyRound ((c : ℚ) * scale))

/-- Lines 107-114 of the source: the horizontal paste coordinate. -/
def pasteX (align : Align) (x1 x2 padding region_w new_w : ℤ) : ℤ :=
  match align with
  | .left => x1 + padding
  | .center => x1 + padding + Int.fdiv (region_w - new_w) 2
  | .right => x2 - padding - new_w

/-- Lines 117-124 of the source: the vertical paste coordinate. -/
def pasteY (valign : VAlign) (y1 y2 padding region_h new_h : ℤ) : ℤ :=
  match valign with
  | .top => y1 + padding
  | .middle => y1 + padding + Int.fdiv (region_h - new_h) 2
  | .bottom => y2 - padding - new_h

/-- Modelled from the spec: the external resampler (`Image.resize` with the
LANCZOS filter) returns a new image of exactly the requested size with the
band layout of its input.  The pixel values of the stand-in are
nearest-neighbour samples; no verified property depends on the filter's
pixel arithmetic, only on the size and the band layout. -/
def resample (im : PILImage) (w h : ℕ) : PILImage :=
  { width := w, height := h, hasAlpha := im.hasAlpha,
    pix := fun x y => im.pix (x * im.width / w) (y * im.height / h) }

/-- One blended channel of a masked paste: mask 0 keeps the destination
value, mask 255 takes the source value. -/
def blendChannel (d s a : ℕ) : ℕ := (d * (255 - a) + s * a) / 255

/-- Blend a whole pixel under mask value `a`. -/
def blendPixel (d s : Pixel) (a : ℕ) : Pixel :=
  { r := blendChannel d.r s.r a, g := blendChannel d.g s.g a,
    b := blendChannel d.b s.b a, a := blendChannel d.a s.a a }

/-- Modelled from the spec: Pillow's `paste` with the pasted image itself as
mask — the source pixel's alpha gates the destination pixel: alpha 0 leaves
the canvas pixel untouched, alpha 255 fully replaces it. -/
def pasteMasked (base src : PILImage) (px py : ℤ) : PILImage :=
  { base with pix := fun x y =>
      if px ≤ (x : ℤ) ∧ (x : ℤ) < px + src.width ∧ py ≤ (y : ℤ) ∧ (y : ℤ) < py + src.height then
        let s := src.pix ((x : ℤ) - px).toNat ((y : ℤ) - py).toNat
        blendPixel (base.pix x y) s s.a
      else base.pix x y }

/-- Modelled from the spec: Pillow's maskless `paste` — an unconditional
rectangular overwrite of the destination. -/
def pasteOpaque (base src : PILImage) (px py : ℤ) : PILImage :=
  { base with pix := fun x y =>
      if px ≤ (x : ℤ) ∧ (x : ℤ) < px + src.width ∧ py ≤ (y : ℤ) ∧ (y : ℤ) < py + src.height then
        src.pix ((x : ℤ) - px).toNat ((y : ℤ) - py).toNat
      else base.pix x y }

/-- The resized content image produced at line 102 of the source, as a
function of the region, the padding and the upscale policy. -/
def resizedImage (content : PILImage) (x1 y1 x2 y2 padding : ℤ) (allow_upscale : Bool) :
    PILImage :=
  let scale := containScale (innerDim x1 x2 padding) (innerDim y1 y2 padding)
    content.width content.height allow_upscale
  resample content (placedDim content.width scale).toNat (placedDim content.height scale).toNat

/-- The paste origin `(px, py)` computed at lines 107-124 of the source. -/
def pasteOrigin (content : PILImage) (x1 y1 x2 y2 padding : ℤ)
    (align : Align) (valign : VAlign) (allow_upscale : Bool) : ℤ × ℤ :=
  let region_w := innerDim x1 x2 padding
  let region_h := innerDim y1 y2 padding
  let scale := containScale region_w region_h content.width content.height allow_upscale
  (pasteX align x1 x2 padding region_w (placedDim content.width scale),
   pasteY valign y1 y2 padding region_h (placedDim content.height scale))

/-- Lines 99-139 of the source after validation: resize the content and
paste it onto the canvas copy, with the content's own alpha as mask exactly
when `keep_alpha` is set and the resized content carries an alpha band. -/
def composeImage (img content : PILImage) (x1 y1 x2 y2 padding : ℤ)
    (align : Align) (valign : VAlign) (allow_upscale keep_alpha : Bool) : PILImage :=
  if keep_alpha && (resizedImage content x1 y1 x2 y2 padding allow_upscale).hasAlpha then
    pasteMasked img (resizedImage content x1 y1 x2 y2 padding allow_upscale)
      (pasteOrigin content x1 y1 x2 y2 padding align valign allow_upscale).1
      (pasteOrigin content x1 y1 x2 y2 padding align valign allow_upscale).2
  else
    pasteOpaque img (resizedImage content x1 y1 x2 y2 padding allow_upscale)
      (pasteOrigin content x1 y1 x2 y2 padding align valign allow_upscale).1
      (pasteOrigin content x1 y1 x2 y2 padding align valign allow_upscale).2

/-- Modelled from the spec: the codec's PNG encoder — a deterministic
serialization of the image (dimensions, band layout, then every pixel in
row-major order) into a byte sequence. -/
def pngEncode (im : PILImage) : List ℕ :=
  im.width :: im.height :: (if im.hasAlpha then 1 else 0) ::
    (List.range im.height).flatMap (fun y =>
      (List.range im.width).flatMap (fun x =>
        [(im.pix x y).r, (im.pix x y).g, (im.pix x y).b, (im.pix x y).a]))

/-- Lines 46-52 of the source: a decoded canvas is copied, a path is opened
and converted to RGBA; an unreadable path is the codec's decode failure. -/
def resolveCanvas (fs : FS) (src : ImgSource) : Option PILImage :=
  match src with
  | .image im => some im
  | .path p => (fs p).map convertRGBA

/-- Lines 55-60 of the source: a decoded overlay is copied; a path is opened
and converted only when the file exists, otherwise the overlay is dropped. -/
def resolveOverlay (fs : FS) (ov : Option ImgSource) : Option PILImage :=
  match ov with
  | none => none
  | some (.image im) => some im
  | some (.path p) => (fs p).map convertRGBA

/-- The diagnostic printed at line 150 of the source. -/
def overlayWarning : String := "Warning: overlay image is not exist."

/-- The whole routine `paste_image_auto` (src/image_fit_paste.py, lines
13-159): validation, canvas and overlay resolution, geometry and scale
computation, alpha-aware paste, optional overlay paste, PNG encoding.
The result carries the returned bytes together with the warnings printed
during the call. -/
def paste_image_auto (fs : FS) (image_source : ImgSource)
    (top_left bottom_right : ℤ × ℤ) (content_image : ContentArg)
    (align : Align) (valign : VAlign) (padding : ℤ)
    (allow_upscale keep_alpha : Bool) (image_overlay : Option ImgSource) :
    Except PErr (List ℕ × List String) :=
  match content_image with
  | .notImage => .error .typeMismatch
  | .image content =>
    match resolveCanvas fs image_source with
    | none => .error .decodeFailure
    | some img =>
      let img_overlay := resolveOverlay fs image_overlay
      if ¬(bottom_right.1 > top_left.1 ∧ bottom_right.2 > top_left.2) then
        .error .invalidGeometry
      else if content.width = 0 ∨ content.height = 0 then
        .error .invalidContentSize
      else
        let pasted := composeImage img content top_left.1 top_left.2
          bottom_right.1 bottom_right.2 padding align valign allow_upscale keep_alpha
        match img_overlay with
        | some ov => .ok (pngEncode (pasteMasked pasted ov 0 0), [])
        | none =>
          .ok (pngEncode pasted, if image_overlay.isSome then [overlayWarning] else [])

/-- `true` exactly on successful results. -/
def isOkResult : Except PErr (List ℕ × List String) → Bool
  | .ok _ => true
  | .error _ => false

/-! ### Arithmetic helper lemmas -/

theorem innerDim_ge_one (a b padding : ℤ) : 1 ≤ innerDim a b padding :=
  le_max_left _ _

theorem pyRound_intCast (n : ℤ) : pyRound (n : ℚ) = n := by
  unfold pyRound
  norm_num [Int.floor_intCast]

theorem pyRound_le_of_le {q : ℚ} {n : ℤ} (h : q ≤ (n : ℚ)) : pyRound q ≤ n := by
  have hf : ⌊q⌋ ≤ n := by
    have := Int.floor_le_floor h
    simpa using this
  have hfl : ((⌊q⌋ : ℤ) : ℚ) ≤ q := Int.floor_le q
  unfold pyRound
  split_ifs with h1 h2 h3
  · exact hf
  · have hlt : ((⌊q⌋ : ℤ) : ℚ) < (n : ℚ) := by linarith
    have : ⌊q⌋ < n := by exact_mod_cast hlt
    omega
  · exact hf
  · have hge : (1 : ℚ)/2 ≤ q - ⌊q⌋ := le_of_not_lt h1
    have hlt : ((⌊q⌋ : ℤ) : ℚ) < (n : ℚ) := by linarith
    have : ⌊q⌋ < n := by exact_mod_cast hlt
    omega

theorem pyRound_nearest (q : ℚ) : |q - (pyRound q : ℚ)| ≤ 1/2 := by
  have h0 : ((⌊q⌋ : ℤ) : ℚ) ≤ q := Int.floor_le q
  have h1 : q < ((⌊q⌋ : ℤ) : ℚ) + 1 := Int.lt_floor_add_one q
  unfold pyRound
  split_ifs with ha hb hc
  · rw [abs_of_nonneg (by linarith)]; linarith
  · rw [abs_of_nonpos (by push_cast; linarith)]; push_cast; linarith
  · rw [abs_of_nonneg (by linarith)]; linarith
  · have hge : (1 : ℚ)/2 ≤ q - ⌊q⌋ := le_of_not_lt ha
    rw [abs_of_nonpos (by push_cast; linarith)]; push_cast; linarith

theorem containScale_le_w (region_w region_h : ℤ) (cw ch : ℕ) (au : Bool) :
    containScale region_w region_h cw ch au ≤ (region_w : ℚ) / (cw : ℚ) := by
  unfold containScale
  cases au with
  | false =>
    simp only [Bool.false_eq_true, if_false]
    exact le_trans (min_le_right _ _) (min_le_left _ _)
  | true =>
    simp only [if_true]
    exact min_le_left _ _

theorem containScale_le_h (region_w region_h : ℤ) (cw ch : ℕ) (au : Bool) :
    containScale region_w region_h cw ch au ≤ (region_h : ℚ) / (ch : ℚ) := by
  unfold containScale
  cases au with
  | false =>
    simp only [Bool.false_eq_true, if_false]
    exact le_trans (min_le_right _ _) (min_le_right _ _)
  | true =>
    simp only [if_true]
    exact min_le_right _ _

theorem placedDim_exact (cw : ℕ) (n : ℤ) (hcw : 1 ≤ cw) (hn : 1 ≤ n) :
    placedDim cw ((n : ℚ) / (cw : ℚ)) = n := by
  have hc : (cw : ℚ) ≠ 0 := Nat.cast_ne_zero.mpr (by omega)
  unfold placedDim
  rw [mul_comm, div_mul_cancel₀ _ hc, pyRound_intCast, max_eq_right hn]

theorem placedDim_le_w (region_w region_h : ℤ) (cw ch : ℕ) (au : Bool)
    (hcw : 1 ≤ cw) (h1 : 1 ≤ region_w) :
    placedDim cw (containScale region_w region_h cw ch au) ≤ region_w := by
  have hc0 : (0 : ℚ) < (cw : ℚ) := by exact_mod_cast Nat.lt_of_lt_of_le Nat.zero_lt_one hcw
  have hmul : (cw : ℚ) * containScale region_w region_h cw ch au ≤ (region_w : ℚ) := by
    calc (cw : ℚ) * containScale region_w region_h cw ch au
        ≤ (cw : ℚ) * ((region_w : ℚ) / (cw : ℚ)) :=
          mul_le_mul_of_nonneg_left (containScale_le_w region_w region_h cw ch au) hc0.le
      _ = (region_w : ℚ) := by rw [mul_comm, div_mul_cancel₀ _ hc0.ne']
  unfold placedDim
  exact max_le h1 (pyRound_le_of_le hmul)

theorem placedDim_le_h (region_w region_h : ℤ) (cw ch : ℕ) (au : Bool)
    (hch : 1 ≤ ch) (h1 : 1 ≤ region_h) :
    placedDim ch (containScale region_w region_h cw ch au) ≤ region_h := by
  have hc0 : (0 : ℚ) < (ch : ℚ) := by exact_mod_cast Nat.lt_of_lt_of_le Nat.zero_lt_one hch
  have hmul : (ch : ℚ) * containScale region_w region_h cw ch au ≤ (region_h : ℚ) := by
    calc (ch : ℚ) * containScale region_w region_h cw ch au
        ≤ (ch : ℚ) * ((region_h : ℚ) / (ch : ℚ)) :=
          mul_le_mul_of_nonneg_left (containScale_le_h region_w region_h cw ch au) hc0.le
      _ = (region_h : ℚ) := by rw [mul_comm, div_mul_cancel₀ _ hc0.ne']
  unfold placedDim
  exact max_le h1 (pyRound_le_of_le hmul)

theorem containScale_touches (region_w region_h : ℤ) (cw ch : ℕ) (au : Bool)
    (hcw : 1 ≤ cw) (hch : 1 ≤ ch) (h1w : 1 ≤ region_w) (h1h : 1 ≤ region_h) :
    placedDim cw (containScale region_w region_h cw ch au) = region_w ∨
    placedDim ch (containScale region_w region_h cw ch au) = region_h ∨
    (au = false ∧ (cw : ℤ) < region_w ∧ (ch : ℤ) < region_h) := by
  have hcq : (0 : ℚ) < (cw : ℚ) := by exact_mod_cast Nat.lt_of_lt_of_le Nat.zero_lt_one hcw
  have hhq : (0 : ℚ) < (ch : ℚ) := by exact_mod_cast Nat.lt_of_lt_of_le Nat.zero_lt_one hch
  rcases le_total ((region_w : ℚ) / (cw : ℚ)) ((region_h : ℚ) / (ch : ℚ)) with hmin | hmin
  · have hmineq : min ((region_w : ℚ) / (cw : ℚ)) ((region_h : ℚ) / (ch : ℚ))
        = (region_w : ℚ) / (cw : ℚ) := min_eq_left hmin
    cases au with
    | true =>
      left
      have hsc : containScale region_w region_h cw ch true = (region_w : ℚ) / (cw : ℚ) := by
        unfold containScale
        simp [hmineq]
      rw [hsc]
      exact placedDim_exact cw region_w hcw h1w
    | false =>
      rcases le_or_lt ((region_w : ℚ) / (cw : ℚ)) 1 with hle | hlt
      · left
        have hsc : containScale region_w region_h cw ch false = (region_w : ℚ) / (cw : ℚ) := by
          unfold containScale
          simp [hmineq, min_eq_right hle]
        rw [hsc]
        exact placedDim_exact cw region_w hcw h1w
      · right; right
        refine ⟨rfl, ?_, ?_⟩
        · have := (one_lt_div hcq).mp hlt
          exact_mod_cast this
        · have h2 : (1 : ℚ) < (region_h : ℚ) / (ch : ℚ) := lt_of_lt_of_le hlt hmin
          have := (one_lt_div hhq).mp h2
          exact_mod_cast this
  · have hmineq : min ((region_w : ℚ) / (cw : ℚ)) ((region_h : ℚ) / (ch : ℚ))
        = (region_h : ℚ) / (ch : ℚ) := min_eq_right hmin
    cases au with
    | true =>
      right; left
      have hsc : containScale region_w region_h cw ch true = (region_h : ℚ) / (ch : ℚ) := by
        unfold containScale
        simp [hmineq]
      rw [hsc]
      exact placedDim_exact ch region_h hch h1h
    | false =>
      rcases le_or_lt ((region_h : ℚ) / (ch : ℚ)) 1 with hle | hlt
      · right; left
        have hsc : containScale region_w region_h cw ch false = (region_h : ℚ) / (ch : ℚ) := by
          unfold containScale
          simp [hmineq, min_eq_right hle]
        rw [hsc]
        exact placedDim_exact ch region_h hch h1h
      · right; right
        refine ⟨rfl, ?_, ?_⟩
        · have h2 : (1 : ℚ) < (region_w : ℚ) / (cw : ℚ) := lt_of_lt_of_le hlt hmin
          have := (one_lt_div hcq).mp h2
          exact_mod_cast this
        · have := (one_lt_div hhq).mp hlt
          exact_mod_cast this

/-! ### Claim theorems -/

/-- C1: contain invariant — for every successful call, with
`inner_width = max(1, (x2-x1)-2*padding)` and
`inner_height = max(1, (y2-y1)-2*padding)`, the placed width is at most the
inner width and the placed height at most the inner height, and at least one
of the two comparisons is an equality, except when `allow_upscale` is false,
the scale was clamped to 1.0 and the content is strictly smaller than the
inner region in both dimensions.  (A successful call has content dimensions
at least 1, which is the hypothesis below.) -/
theorem C1_contain_invariant (x1 y1 x2 y2 padding : ℤ) (cw ch : ℕ)
    (allow_upscale : Bool) (region_w region_h : ℤ) (s : ℚ)
    (hcw : 1 ≤ cw) (hch : 1 ≤ ch)
    (hrw : region_w = innerDim x1 x2 padding) (hrh : region_h = innerDim y1 y2 padding)
    (hs : s = containScale region_w region_h cw ch allow_upscale) :
    placedDim cw s ≤ region_w ∧ placedDim ch s ≤ region_h ∧
      (placedDim cw s = region_w ∨ placedDim ch s = region_h ∨
        (allow_upscale = false ∧ (cw : ℤ) < region_w ∧ (ch : ℤ) < region_h)) := by
  subst hs
  have h1w : 1 ≤ region_w := hrw ▸ innerDim_ge_one x1 x2 padding
  have h1h : 1 ≤ region_h := hrh ▸ innerDim_ge_one y1 y2 padding
  exact ⟨placedDim_le_w region_w region_h cw ch allow_upscale hcw h1w,
    placedDim_le_h region_w region_h cw ch allow_upscale hch h1h,
    containScale_touches region_w region_h cw ch allow_upscale hcw hch h1w h1h⟩

/-- Witness for C1 at the spec's example: region (100,100)-(900,900) with
padding 50 gives an inner region of 700 by 700; a 1400 by 700 content is
placed at 700 by 350, touching the inner width. -/
theorem C1_contain_invariant_witness :
    placedDim 1400 (containScale 700 700 1400 700 false) ≤ 700 ∧
    placedDim 700 (containScale 700 700 1400 700 false) ≤ 700 ∧
      (placedDim 1400 (containScale 700 700 1400 700 false) = 700 ∨
       placedDim 700 (containScale 700 700 1400 700 false) = 700 ∨
        (false = false ∧ (1400 : ℤ) < 700 ∧ (700 : ℤ) < 700)) :=
  C1_contain_invariant 100 100 900 900 50 1400 700 false 700 700
    (containScale 700 700 1400 700 false)
    (by norm_num) (by norm_num) (by decide) (by decide) rfl

/-- C2: scale and size computation — the applied scale is the minimum of the
two inner-over-content ratios, clamped to at most 1 when upscaling is
disallowed; the inner dimensions floor at 1 pixel; each placed dimension is
`max(1, round(content_dimension * scale))` where the rounding is
round-to-nearest (within 1/2 of the exact product), not truncation. -/
theorem C2_scale_and_size (a b p region_w region_h : ℤ) (cw ch c : ℕ)
    (allow_upscale : Bool) (s : ℚ) :
    innerDim a b p = max 1 ((b - a) - 2 * p)
    ∧ containScale region_w region_h cw ch allow_upscale =
        (if allow_upscale then
          min ((region_w : ℚ) / (cw : ℚ)) ((region_h : ℚ) / (ch : ℚ))
         else min 1 (min ((region_w : ℚ) / (cw : ℚ)) ((region_h : ℚ) / (ch : ℚ))))
    ∧ placedDim c s = max 1 (pyRound ((c : ℚ) * s))
    ∧ |(c : ℚ) * s - (pyRound ((c : ℚ) * s) : ℚ)| ≤ 1/2 :=
  ⟨rfl, rfl, rfl, pyRound_nearest _⟩

/-- A pixel used by the concrete sample images. -/
def whitePixel : Pixel := ⟨255, 255, 255, 255⟩

/-- A concrete 2 by 2 opaque canvas. -/
def whiteCanvas2 : PILImage := ⟨2, 2, true, fun _ _ => whitePixel⟩

/-- A concrete 3 by 1 content image. -/
def content3x1 : PILImage := ⟨3, 1, true, fun _ _ => whitePixel⟩

/-- A file system with no files. -/
def emptyFS : FS := fun _ => none

/-- C3 counterexample: the call with region (0,0)-(1,1) and a 3 by 1 content
succeeds, its applied scale is 1/3, yet the placed sizes are 1 by 1, so
`placed_width / content_width = 1/3` while `placed_height / content_height
= 1`; the two ratios differ, refuting exact aspect preservation. -/
theorem C3_counterexample :
    isOkResult (paste_image_auto emptyFS (.image whiteCanvas2) (0, 0) (1, 1)
      (.image content3x1) .center .middle 0 true true none) = true
    ∧ ¬((placedDim 3 (containScale 1 1 3 1 true) : ℚ) / (3 : ℚ)
        = (placedDim 1 (containScale 1 1 3 1 true) : ℚ) / (1 : ℚ)) := by
  constructor
  · decide
  · norm_num [placedDim, containScale, pyRound]

/-- Helper for the amended C3: each placed dimension is the 1-pixel floor or
lies within 1/2 of the exact real-valued target. -/
theorem placedDim_near (c : ℕ) (s : ℚ) :
    placedDim c s = 1 ∨ |(placedDim c s : ℚ) - (c : ℚ) * s| ≤ 1/2 := by
  unfold placedDim
  rcases le_or_lt (pyRound ((c : ℚ) * s)) 1 with hle | hlt
  · left
    exact max_eq_left hle
  · right
    rw [max_eq_right hlt.le, abs_sub_comm]
    exact pyRound_nearest _

/-- C3 amended: for every call, each placed dimension equals
`content_dimension * scale` up to rounding — it is within 1/2 of the exact
product unless the 1-pixel floor engages — so the two ratios
`placed/content` agree with the applied scale only up to rounding, not
exactly. -/
theorem C3_aspect_amended (region_w region_h : ℤ) (cw ch : ℕ) (au : Bool) :
    (placedDim cw (containScale region_w region_h cw ch au) = 1 ∨
      |(placedDim cw (containScale region_w region_h cw ch au) : ℚ)
        - (cw : ℚ) * containScale region_w region_h cw ch au| ≤ 1/2)
    ∧ (placedDim ch (containScale region_w region_h cw ch au) = 1 ∨
      |(placedDim ch (containScale region_w region_h cw ch au) : ℚ)
        - (ch : ℚ) * containScale region_w region_h cw ch au| ≤ 1/2) :=
  ⟨placedDim_near _ _, placedDim_near _ _⟩

/-- C4: placement arithmetic — the paste origin is exactly `x1 + padding`
for left, `x1 + padding + (inner_width - placed_width) // 2` with floor
division for center, and `x2 - padding - placed_width` for right, and
symmetrically for the vertical axis; the floored half-leftover never
exceeds the exact half (top-left bias); with padding 0, left/top places the
origin at `top_left` exactly, and right/bottom places the bottom-right
corner at `bottom_right` exactly. -/
theorem C4_placement_arithmetic (x1 y1 x2 y2 padding region_w region_h new_w new_h : ℤ) :
    pasteX .left x1 x2 padding region_w new_w = x1 + padding
    ∧ pasteX .center x1 x2 padding region_w new_w
        = x1 + padding + Int.fdiv (region_w - new_w) 2
    ∧ pasteX .right x1 x2 padding region_w new_w = x2 - padding - new_w
    ∧ pasteY .top y1 y2 padding region_h new_h = y1 + padding
    ∧ pasteY .middle y1 y2 padding region_h new_h
        = y1 + padding + Int.fdiv (region_h - new_h) 2
    ∧ pasteY .bottom y1 y2 padding region_h new_h = y2 - padding - new_h
    ∧ 2 * Int.fdiv (region_w - new_w) 2 ≤ region_w - new_w
    ∧ pasteX .left x1 x2 0 region_w new_w = x1
    ∧ pasteY .top y1 y2 0 region_h new_h = y1
    ∧ pasteX .right x1 x2 0 region_w new_w + new_w = x2
    ∧ pasteY .bottom y1 y2 0 region_h new_h + new_h = y2 := by
  refine ⟨rfl, rfl, rfl, rfl, rfl, rfl, ?_, ?_, ?_, ?_, ?_⟩
  · have hmod := Int.fdiv_add_fmod (region_w - new_w) 2
    have hpos := Int.fmod_nonneg' (region_w - new_w) (by norm_num : (0:ℤ) < 2)
    linarith
  · simp [pasteX]
  · simp [pasteY]
  · simp only [pasteX]
    ring
  · simp only [pasteY]
    ring

/-- C6: upscale clamp identity — when upscaling is disallowed and the
content already fits the inner region at scale at least 1, the scale is
pinned to exactly 1 and the placed size equals the content size. -/
theorem C6_upscale_clamp (x1 y1 x2 y2 padding : ℤ) (cw ch : ℕ) (region_w region_h : ℤ)
    (s : ℚ) (hcw : 1 ≤ cw) (hch : 1 ≤ ch)
    (_hrw : region_w = innerDim x1 x2 padding) (_hrh : region_h = innerDim y1 y2 padding)
    (hw : (cw : ℤ) ≤ region_w) (hh : (ch : ℤ) ≤ region_h)
    (hs : s = containScale region_w region_h cw ch false) :
    s = 1 ∧ placedDim cw s = (cw : ℤ) ∧ placedDim ch s = (ch : ℤ) := by
  have hcq : (0 : ℚ) < (cw : ℚ) := by exact_mod_cast Nat.lt_of_lt_of_le Nat.zero_lt_one hcw
  have hhq : (0 : ℚ) < (ch : ℚ) := by exact_mod_cast Nat.lt_of_lt_of_le Nat.zero_lt_one hch
  have hw1 : (1 : ℚ) ≤ (region_w : ℚ) / (cw : ℚ) := by
    rw [le_div_iff₀ hcq, one_mul]
    exact_mod_cast hw
  have hh1 : (1 : ℚ) ≤ (region_h : ℚ) / (ch : ℚ) := by
    rw [le_div_iff₀ hhq, one_mul]
    exact_mod_cast hh
  have hs1 : s = 1 := by
    rw [hs]
    unfold containScale
    simp only [Bool.false_eq_true, if_false]
    exact min_eq_left (le_min hw1 hh1)
  refine ⟨hs1, ?_, ?_⟩
  · rw [hs1]
    unfold placedDim
    rw [mul_one]
    have : ((cw : ℤ) : ℚ) = (cw : ℚ) := by push_cast; rfl
    rw [← this, pyRound_intCast, max_eq_right (by exact_mod_cast hcw)]
  · rw [hs1]
    unfold placedDim
    rw [mul_one]
    have : ((ch : ℤ) : ℚ) = (ch : ℚ) := by push_cast; rfl
    rw [← this, pyRound_intCast, max_eq_right (by exact_mod_cast hch)]

/-- Witness for C6: a 3 by 2 content inside an 8 by 8 inner region with
upscaling disallowed keeps its native 3 by 2 size, at scale exactly 1. -/
theorem C6_upscale_clamp_witness :
    containScale 8 8 3 2 false = 1 ∧
    placedDim 3 (containScale 8 8 3 2 false) = (3 : ℤ) ∧
    placedDim 2 (containScale 8 8 3 2 false) = (2 : ℤ) :=
  C6_upscale_clamp 0 0 10 10 1 3 2 8 8 (containScale 8 8 3 2 false)
    (by norm_num) (by norm_num) (by decide) (by decide) (by decide) (by decide) rfl

theorem blendChannel_mask_zero (d s : ℕ) : blendChannel d s 0 = d := by
  unfold blendChannel
  omega

theorem blendChannel_mask_full (d s : ℕ) : blendChannel d s 255 = s := by
  unfold blendChannel
  omega

theorem blendPixel_mask_zero (d s : Pixel) : blendPixel d s 0 = d := by
  cases d
  simp [blendPixel, blendChannel_mask_zero]

theorem blendPixel_mask_full (d s : Pixel) : blendPixel d s 255 = s := by
  cases s
  simp [blendPixel, blendChannel_mask_full]

/-- C5: alpha-aware paste — on the composited canvas, inside the placed
rectangle: when `keep_alpha` is set and the resized content carries an alpha
band, a fully transparent source pixel (alpha 0) leaves the canvas pixel
unchanged and a fully opaque one (alpha 255) fully replaces it; otherwise
(alpha preservation off, or no alpha band) every pixel of the placed
rectangle is overwritten with the resized content unconditionally. -/
theorem C5_alpha_paste (img content R : PILImage) (px py : ℤ)
    (x1 y1 x2 y2 padding : ℤ) (align : Align) (valign : VAlign)
    (allow_upscale keep_alpha : Bool) (x y : ℕ)
    (hR : R = resizedImage content x1 y1 x2 y2 padding allow_upscale)
    (hp : (px, py) = pasteOrigin content x1 y1 x2 y2 padding align valign allow_upscale)
    (hin : px ≤ (x : ℤ) ∧ (x : ℤ) < px + (R.width : ℤ) ∧
           py ≤ (y : ℤ) ∧ (y : ℤ) < py + (R.height : ℤ)) :
    ((keep_alpha = true ∧ R.hasAlpha = true) →
      ((R.pix ((x : ℤ) - px).toNat ((y : ℤ) - py).toNat).a = 0 →
        (composeImage img content x1 y1 x2 y2 padding align valign allow_upscale keep_alpha).pix x y
          = img.pix x y)
      ∧ ((R.pix ((x : ℤ) - px).toNat ((y : ℤ) - py).toNat).a = 255 →
        (composeImage img content x1 y1 x2 y2 padding align valign allow_upscale keep_alpha).pix x y
          = R.pix ((x : ℤ) - px).toNat ((y : ℤ) - py).toNat))
    ∧ ((keep_alpha = false ∨ R.hasAlpha = false) →
      (composeImage img content x1 y1 x2 y2 padding align valign allow_upscale keep_alpha).pix x y
        = R.pix ((x : ℤ) - px).toNat ((y : ℤ) - py).toNat) := by
  have hpx : (pasteOrigin content x1 y1 x2 y2 padding align valign allow_upscale).1 = px := by
    rw [← hp]
  have hpy : (pasteOrigin content x1 y1 x2 y2 padding align valign allow_upscale).2 = py := by
    rw [← hp]
  constructor
  · rintro ⟨hka, hAl⟩
    have hcond : (keep_alpha && R.hasAlpha) = true := by
      rw [hka, hAl]
      rfl
    constructor
    · intro ha0
      simp only [composeImage, ← hR, hpx, hpy]
      rw [if_pos hcond]
      simp only [pasteMasked]
      rw [if_pos hin, ha0, blendPixel_mask_zero]
    · intro ha255
      simp only [composeImage, ← hR, hpx, hpy]
      rw [if_pos hcond]
      simp only [pasteMasked]
      rw [if_pos hin, ha255, blendPixel_mask_full]
  · intro hoff
    have hcond : ¬((keep_alpha && R.hasAlpha) = true) := by
      rcases hoff with h | h
      · rw [h]
        simp
      · rw [h]
        simp
    simp only [composeImage, ← hR, hpx, hpy]
    rw [if_neg hcond]
    simp only [pasteOpaque]
    rw [if_pos hin]

/-- A concrete 1 by 1 fully transparent content image. -/
def clearContent1 : PILImage := ⟨1, 1, true, fun _ _ => ⟨9, 9, 9, 0⟩⟩

/-- Witness for C5: pasting a fully transparent 1 by 1 content into the
region (0,0)-(2,2) of the white 2 by 2 canvas leaves the canvas pixel at
the paste origin unchanged. -/
theorem C5_alpha_paste_witness :
    (composeImage whiteCanvas2 clearContent1 0 0 2 2 0 .left .top false true).pix 0 0
      = whiteCanvas2.pix 0 0 :=
  ((C5_alpha_paste whiteCanvas2 clearContent1
      (resizedImage clearContent1 0 0 2 2 0 false) 0 0 0 0 2 2 0 .left .top false true 0 0
      rfl
      (by norm_num [pasteOrigin, pasteX, pasteY, placedDim, containScale, pyRound,
        innerDim, min_def, clearContent1])
      (by norm_num [resizedImage, resample, placedDim, containScale, pyRound,
        innerDim, min_def, clearContent1])).1
    (by norm_num [resizedImage, resample, clearContent1])).1
    (by norm_num [resizedImage, resample, clearContent1])

/-- C7: validation order and error surface — a non-image `content_image`
fails with the type-mismatch error unconditionally (before the canvas is
even resolved); with a decoded content and a resolvable canvas, the
invalid-geometry error occurs exactly when `x2 <= x1` or `y2 <= y1`
(taking priority over the content-size check), the invalid-content-size
error occurs exactly when a content dimension is zero once the region is
valid, and when all three validations pass the call succeeds — no other
validation failure exists. -/
theorem C7_validation_order (fs : FS) (image_source : ImgSource)
    (x1 y1 x2 y2 : ℤ) (align : Align) (valign : VAlign) (padding : ℤ)
    (allow_upscale keep_alpha : Bool) (image_overlay : Option ImgSource) :
    paste_image_auto fs image_source (x1, y1) (x2, y2) .notImage align valign padding
        allow_upscale keep_alpha image_overlay = .error .typeMismatch
    ∧ ∀ content img, resolveCanvas fs image_source = some img →
        ((paste_image_auto fs image_source (x1, y1) (x2, y2) (.image content) align valign
            padding allow_upscale keep_alpha image_overlay = .error .invalidGeometry
          ↔ (x2 ≤ x1 ∨ y2 ≤ y1))
        ∧ (x1 < x2 → y1 < y2 →
            (paste_image_auto fs image_source (x1, y1) (x2, y2) (.image content) align valign
                padding allow_upscale keep_alpha image_overlay = .error .invalidContentSize
              ↔ (content.width = 0 ∨ content.height = 0)))
        ∧ (x1 < x2 → y1 < y2 → content.width ≠ 0 → content.height ≠ 0 →
            isOkResult (paste_image_auto fs image_source (x1, y1) (x2, y2) (.image content)
              align valign padding allow_upscale keep_alpha image_overlay) = true)) := by
  refine ⟨rfl, fun content img hres => ?_⟩
  by_cases hg : (x2, y2).1 > (x1, y1).1 ∧ (x2, y2).2 > (x1, y1).2
  · by_cases hsz : content.width = 0 ∨ content.height = 0
    · have hres2 : paste_image_auto fs image_source (x1, y1) (x2, y2) (.image content) align
          valign padding allow_upscale keep_alpha image_overlay = .error .invalidContentSize := by
        simp only [paste_image_auto, hres]
        rw [if_neg (not_not_intro hg), if_pos hsz]
      refine ⟨?_, fun _ _ => iff_of_true hres2 hsz, fun _ _ hw hh => ?_⟩
      · refine iff_of_false (fun h => ?_) (by simp only [Prod.fst, Prod.snd] at hg; omega)
        rw [hres2] at h
        simp at h
      · exact (hsz.elim hw hh).elim
    · have hok : isOkResult (paste_image_auto fs image_source (x1, y1) (x2, y2)
          (.image content) align valign padding allow_upscale keep_alpha image_overlay)
          = true := by
        simp only [paste_image_auto, hres]
        rw [if_neg (not_not_intro hg), if_neg hsz]
        cases resolveOverlay fs image_overlay <;> rfl
      refine ⟨?_, fun _ _ => ?_, fun _ _ _ _ => hok⟩
      · refine iff_of_false (fun h => ?_) (by simp only [Prod.fst, Prod.snd] at hg; omega)
        rw [h] at hok
        simp [isOkResult] at hok
      · refine iff_of_false (fun h => ?_) hsz
        rw [h] at hok
        simp [isOkResult] at hok
  · have hres2 : paste_image_auto fs image_source (x1, y1) (x2, y2) (.image content) align
        valign padding allow_upscale keep_alpha image_overlay = .error .invalidGeometry := by
      simp only [paste_image_auto, hres]
      rw [if_pos hg]
    simp only [Prod.fst, Prod.snd] at hg
    refine ⟨iff_of_true hres2 (by omega), fun h1 h2 => (hg ⟨h1, h2⟩).elim,
      fun h1 h2 _ _ => (hg ⟨h1, h2⟩).elim⟩

/-- Witness for C7 at the spec's degenerate-region example: region
(0,0)-(0,5) has `x2 = x1`, so the call fails with the invalid-geometry
error. -/
theorem C7_validation_order_witness :
    paste_image_auto emptyFS (.image whiteCanvas2) (0, 0) (0, 5) (.image content3x1)
      .center .middle 0 false true none = .error .invalidGeometry :=
  (((C7_validation_order emptyFS (.image whiteCanvas2) 0 0 0 5 .center .middle 0 false true
      none).2 content3x1 whiteCanvas2 rfl).1).mpr (by omega)

/-- C9: missing-overlay soft failure — when the overlay argument is a path
to a nonexistent file, the call does not fail: it behaves exactly like the
same call with no overlay, returning the identical byte sequence, except
that the warning diagnostic is emitted. -/
theorem C9_missing_overlay (fs : FS) (image_source : ImgSource)
    (top_left bottom_right : ℤ × ℤ) (content_image : ContentArg)
    (align : Align) (valign : VAlign) (padding : ℤ)
    (allow_upscale keep_alpha : Bool) (p : String) (hfs : fs p = none) :
    paste_image_auto fs image_source top_left bottom_right content_image align valign padding
        allow_upscale keep_alpha (some (.path p))
      = (paste_image_auto fs image_source top_left bottom_right content_image align valign
          padding allow_upscale keep_alpha none).map (fun r => (r.1, [overlayWarning])) := by
  cases content_image with
  | notImage => rfl
  | image content =>
    simp only [paste_image_auto]
    cases hres : resolveCanvas fs image_source with
    | none => rfl
    | some img =>
      simp only [resolveOverlay, hfs, Option.map_none']
      split_ifs <;> simp_all [Except.map]

/-- Witness for C9: with an empty file system, asking for the overlay path
"missing.png" produces the same bytes as asking for no overlay, plus the
warning. -/
theorem C9_missing_overlay_witness :
    paste_image_auto emptyFS (.image whiteCanvas2) (0, 0) (2, 2) (.image content3x1)
        .center .middle 0 false true (some (.path "missing.png"))
      = (paste_image_auto emptyFS (.image whiteCanvas2) (0, 0) (2, 2) (.image content3x1)
          .center .middle 0 false true none).map (fun r => (r.1, [overlayWarning])) :=
  C9_missing_overlay emptyFS (.image whiteCanvas2) (0, 0) (2, 2) (.image content3x1)
    .center .middle 0 false true "missing.png" rfl

/-- C10: padding is never validated — a negative padding raises no error
(the call still succeeds when the other validations pass); the inner
dimensions then strictly exceed the rectangle's own dimensions, and the
left/top paste origin `(x1 + padding, y1 + padding)` lies strictly outside
the given rectangle. -/
theorem C10_negative_padding (fs : FS) (image_source : ImgSource) (img content : PILImage)
    (x1 y1 x2 y2 padding : ℤ) (align : Align) (valign : VAlign)
    (allow_upscale keep_alpha : Bool) (image_overlay : Option ImgSource)
    (hpad : padding < 0) (hx : x1 < x2) (hy : y1 < y2)
    (hres : resolveCanvas fs image_source = some img)
    (hw : content.width ≠ 0) (hh : content.height ≠ 0) :
    isOkResult (paste_image_auto fs image_source (x1, y1) (x2, y2) (.image content)
        align valign padding allow_upscale keep_alpha image_overlay) = true
    ∧ x2 - x1 < innerDim x1 x2 padding
    ∧ y2 - y1 < innerDim y1 y2 padding
    ∧ (pasteOrigin content x1 y1 x2 y2 padding .left .top allow_upscale).1 = x1 + padding
    ∧ (pasteOrigin content x1 y1 x2 y2 padding .left .top allow_upscale).2 = y1 + padding
    ∧ x1 + padding < x1 ∧ y1 + padding < y1 := by
  refine ⟨?_, ?_, ?_, rfl, rfl, by omega, by omega⟩
  · simp only [paste_image_auto, hres]
    rw [if_neg (not_not_intro ⟨hx, hy⟩), if_neg (fun h => h.elim hw hh)]
    cases resolveOverlay fs image_overlay <;> rfl
  · have h : x2 - x1 < (x2 - x1) - 2 * padding := by omega
    exact lt_of_lt_of_le h (le_max_right _ _)
  · have h : y2 - y1 < (y2 - y1) - 2 * padding := by omega
    exact lt_of_lt_of_le h (le_max_right _ _)

/-- Witness for C10: padding -2 on region (0,0)-(4,4) succeeds, yields inner
dimensions 8 > 4, and a left/top origin (-2, -2) outside the region. -/
theorem C10_negative_padding_witness :
    isOkResult (paste_image_auto emptyFS (.image whiteCanvas2) (0, 0) (4, 4)
        (.image content3x1) .left .top (-2) false true none) = true
    ∧ (4 : ℤ) - 0 < innerDim 0 4 (-2)
    ∧ (4 : ℤ) - 0 < innerDim 0 4 (-2)
    ∧ (pasteOrigin content3x1 0 0 4 4 (-2) .left .top false).1 = 0 + (-2)
    ∧ (pasteOrigin content3x1 0 0 4 4 (-2) .left .top false).2 = 0 + (-2)
    ∧ (0 : ℤ) + (-2) < 0 ∧ (0 : ℤ) + (-2) < 0 :=
  C10_negative_padding emptyFS (.image whiteCanvas2) whiteCanvas2 content3x1
    0 0 4 4 (-2) .left .top false true none (by norm_num) (by norm_num) (by norm_num)
    rfl (by decide) (by decide)

/-- The heap of live image objects: cell `i` holds the pixel data of the
object allocated `i`-th.  It models Python object identity for the
mutation claim: `copy()` and `resize` allocate fresh cells, `img.paste`
mutates the cell of the canvas copy in place. -/
abbrev Heap := List PILImage

/-- An image argument as the caller passes it: a heap reference to an
already-decoded image object, or a path string. -/
inductive HRef where
  | path (p : String)
  | ref (i : ℕ)

/-- Heap-passing rendition of `paste_image_auto`, mirroring the object
operations of the source: line 48 `image_source.copy()` and line 57/60
overlay resolution allocate fresh cells, line 102 `resize` allocates a
fresh cell, and lines 134/139/147 `img.paste` mutate the canvas-copy cell
in place.  Returns the final heap together with the call's result. -/
def paste_image_auto_st (fs : FS) (h0 : Heap) (image_source : HRef)
    (top_left bottom_right : ℤ × ℤ) (content_ref : ℕ)
    (align : Align) (valign : VAlign) (padding : ℤ)
    (allow_upscale keep_alpha : Bool) (image_overlay : Option HRef) :
    Heap × Except PErr (List ℕ × List String) :=
  match h0[content_ref]? with
  | none => (h0, .error .typeMismatch)
  | some content =>
    match (match image_source with
           | .ref i => h0[i]?
           | .path p => (fs p).map convertRGBA) with
    | none => (h0, .error .decodeFailure)
    | some img =>
      let h1 := h0 ++ [img]
      let ovVal : Option PILImage :=
        match image_overlay with
        | none => none
        | some (.ref i) => h0[i]?
        | some (.path p) => (fs p).map convertRGBA
      let h2 := match ovVal with
        | some ov => h1 ++ [ov]
        | none => h1
      if ¬(bottom_right.1 > top_left.1 ∧ bottom_right.2 > top_left.2) then
        (h2, .error .invalidGeometry)
      else if content.width = 0 ∨ content.height = 0 then
        (h2, .error .invalidContentSize)
      else
        let pasted := composeImage img content top_left.1 top_left.2 bottom_right.1
          bottom_right.2 padding align valign allow_upscale keep_alpha
        let h3 := h2 ++ [resizedImage content top_left.1 top_left.2 bottom_right.1
          bottom_right.2 padding allow_upscale]
        let h4 := h3.set h0.length pasted
        match ovVal with
        | some ov =>
          (h4.set h0.length (pasteMasked pasted ov 0 0),
            .ok (pngEncode (pasteMasked pasted ov 0 0), []))
        | none =>
          (h4, .ok (pngEncode pasted, if image_overlay.isSome then [overlayWarning] else []))

/-- Frame property of the heap-passing routine: every object that existed
before the call is unchanged after it — the only in-place mutations hit the
freshly allocated canvas copy. -/
theorem paste_st_preserves (fs : FS) (h0 : Heap) (image_source : HRef)
    (top_left bottom_right : ℤ × ℤ) (content_ref : ℕ)
    (align : Align) (valign : VAlign) (padding : ℤ)
    (allow_upscale keep_alpha : Bool) (image_overlay : Option HRef)
    (i : ℕ) (hi : i < h0.length) :
    ((paste_image_auto_st fs h0 image_source top_left bottom_right content_ref
        align valign padding allow_upscale keep_alpha image_overlay).1)[i]?
      = h0[i]? := by
  unfold paste_image_auto_st
  cases h0[content_ref]? with
  | none => rfl
  | some content =>
    cases (match image_source with
           | .ref j => h0[j]?
           | .path p => (fs p).map convertRGBA) with
    | none => rfl
    | some img =>
      dsimp only
      cases (match image_overlay with
             | none => none
             | some (.ref j) => h0[j]?
             | some (.path p) => (fs p).map convertRGBA : Option PILImage) with
      | none =>
        dsimp only
        split_ifs <;>
          (try rw [List.getElem?_set_ne (show List.length h0 ≠ i from by omega)]) <;>
          (simp only [List.append_assoc]; exact List.getElem?_append_left hi)
      | some ov =>
        dsimp only
        split_ifs <;>
          (try rw [List.getElem?_set_ne (show List.length h0 ≠ i from by omega)]) <;>
          (try rw [List.getElem?_set_ne (show List.length h0 ≠ i from by omega)]) <;>
          (simp only [List.append_assoc]; exact List.getElem?_append_left hi)

/-- C8: non-mutation of inputs — when the canvas is passed as a decoded
image object (a heap reference) and the content is a decoded image object,
both objects are unchanged on the heap after the call: all drawing happens
on the defensive copy allocated on entry, and resizing allocates a new
object instead of mutating the content. -/
theorem C8_non_mutation (fs : FS) (h0 : Heap) (ri ci : ℕ)
    (top_left bottom_right : ℤ × ℤ) (align : Align) (valign : VAlign) (padding : ℤ)
    (allow_upscale keep_alpha : Bool) (image_overlay : Option HRef)
    (hri : ri < h0.length) (hci : ci < h0.length) :
    ((paste_image_auto_st fs h0 (.ref ri) top_left bottom_right ci
        align valign padding allow_upscale keep_alpha image_overlay).1)[ri]? = h0[ri]?
    ∧ ((paste_image_auto_st fs h0 (.ref ri) top_left bottom_right ci
        align valign padding allow_upscale keep_alpha image_overlay).1)[ci]? = h0[ci]? :=
  ⟨paste_st_preserves fs h0 (.ref ri) top_left bottom_right ci align valign padding
      allow_upscale keep_alpha image_overlay ri hri,
   paste_st_preserves fs h0 (.ref ri) top_left bottom_right ci align valign padding
      allow_upscale keep_alpha image_overlay ci hci⟩

/-- Witness for C8: a two-object heap holding the canvas at cell 0 and the
content at cell 1 is unchanged at both cells by a successful call. -/
theorem C8_non_mutation_witness :
    ((paste_image_auto_st emptyFS [whiteCanvas2, content3x1] (.ref 0) (0, 0) (2, 2) 1
        .center .middle 0 false true none).1)[0]? = [whiteCanvas2, content3x1][0]?
    ∧ ((paste_image_auto_st emptyFS [whiteCanvas2, content3x1] (.ref 0) (0, 0) (2, 2) 1
        .center .middle 0 false true none).1)[1]? = [whiteCanvas2, content3x1][1]? :=
  C8_non_mutation emptyFS [whiteCanvas2, content3x1] 0 1 (0, 0) (2, 2)
    .center .middle 0 false true none (by norm_num) (by norm_num)

end ImageFitPaste
